import Mathlib

/-!
Verification of the adaptive black-bar crop detector of
`source/video_transcoder/lib/tools.py` (function `detect_plack_bars` and its
helpers).  The Python code is shallowly embedded: text is `List Char`,
Python ints are `ℤ`/`Nat`, Python floats are modelled as `ℚ` (all arithmetic
performed on durations here is exact on the values that occur), JSON probe
metadata is an inductive `J` type, and the external analyzer invocations are
modelled by the list of raw report texts they return, one per scheduled
sample window, in schedule order.
-/

namespace CropDetect

/-! ### Character-list helpers -/

/-- `litAt lit l` is true iff `lit` is a prefix of `l` (character-exact). -/
def litAt : List Char → List Char → Bool
  | [], _ => true
  | _ :: _, [] => false
  | a :: as, b :: bs => a = b && litAt as bs

/-- Split a character list on a separator character (like Python `str.split`):
the result is the list of maximal separator-free segments; `n` separators
always produce `n+1` segments. -/
def splitOn (sep : Char) : List Char → List (List Char)
  | [] => [[]]
  | c :: rest =>
    if c = sep then [] :: splitOn sep rest
    else
      match splitOn sep rest with
      | [] => [[c]]
      | seg :: more => (c :: seg) :: more

/-- Decimal value of a digit string (used only to state claims that speak of
the numeric value of a parsed field). -/
def digitsVal (l : List Char) : Nat :=
  l.foldl (fun a c => a * 10 + (c.toNat - '0'.toNat)) 0

/-- Decimal representation of a natural number, as produced by Python
`str(n)` on a non-negative int: no sign, no leading zeros, `"0"` for 0. -/
def natStr (n : Nat) : List Char := Nat.toDigits 10 n

/-! ### The report parser (`_parse_last_cropdetect`)

The Python source runs
`re.findall(r'\[Parsed_cropdetect.*\].*crop=(\d+:\d+:\d+:\d+)', text)` and
keeps the last captured group.  Since `.` does not match a newline, every
match lies within a single line, and on each line the greedy `.*`s make the
captured groups be exactly the `crop=<quad>` occurrences that are preceded
(on the same line) by an occurrence of the literal `[Parsed_cropdetect`
followed, at or after the literal's end, by a `]`.  The embedding scans each
line with a three-state machine mirroring that reading; the literal contains
no `]` and its only `[` is its first character, so advancing one character
after recognising the literal (rather than its full length) reaches the same
`]` and changes nothing. -/

/-- A candidate crop rectangle as captured by the regex: the four decimal
digit strings, verbatim (leading zeros preserved — the Python code compares
these as strings). -/
structure Rect where
  w : List Char
  h : List Char
  x : List Char
  y : List Char
deriving DecidableEq

def parsedLit : List Char := "[Parsed_cropdetect".toList

def cropLit : List Char := "crop=".toList

/-- Parse a maximal nonempty digit run at the head; return it and the rest. -/
def digitsPart (s : List Char) : Option (List Char × List Char) :=
  match s.takeWhile Char.isDigit with
  | [] => none
  | d => some (d, s.dropWhile Char.isDigit)

/-- Expect a `:` at the head. -/
def colonPart : List Char → Option (List Char)
  | ':' :: rest => some rest
  | _ => none

/-- Parse `\d+:\d+:\d+:\d+` at the head of `s` (each `\d+` maximal). -/
def parseQuad (s : List Char) : Option Rect := do
  let (w, s1) ← digitsPart s
  let s2 ← colonPart s1
  let (h, s3) ← digitsPart s2
  let s4 ← colonPart s3
  let (x, s5) ← digitsPart s4
  let s6 ← colonPart s5
  let (y, _) ← digitsPart s6
  some ⟨w, h, x, y⟩

/-- Parse `crop=\d+:\d+:\d+:\d+` at the head of `s`. -/
def cropQuadAt (s : List Char) : Option Rect :=
  if litAt cropLit s then parseQuad (s.drop 5) else none

/-- State 2 of the line scanner: a `]` has been passed; collect every
`crop=<quad>` occurrence from here on, in order. -/
def scanFrom2 : List Char → List Rect
  | [] => []
  | c :: rest =>
    match cropQuadAt (c :: rest) with
    | some r => r :: scanFrom2 rest
    | none => scanFrom2 rest

/-- State 1: the `[Parsed_cropdetect` literal has been passed; look for `]`. -/
def scanFrom1 : List Char → List Rect
  | [] => []
  | c :: rest => if c = ']' then scanFrom2 rest else scanFrom1 rest

/-- State 0: look for the `[Parsed_cropdetect` literal. -/
def scanFrom0 : List Char → List Rect
  | [] => []
  | c :: rest =>
    if litAt parsedLit (c :: rest) then scanFrom1 rest
    else scanFrom0 rest

/-- All captured crop rectangles of one line, in order of occurrence. -/
def lineCrops (line : List Char) : List Rect := scanFrom0 line

/-- Model of `_parse_last_cropdetect`: last captured group over the full
text, or `none`. -/
def parse_last_cropdetect (text : List Char) : Option Rect :=
  ((splitOn '\n' text).map lineCrops).flatten.getLast?

/-! ### Observations -/

/-- A normalized sample result: the Python code represents this as the
string `"NO_CROP"` or a `"w:h:x:y"` crop string (never confusable, since a
crop string contains only digits and colons). -/
inductive Obs where
  | noCrop : Obs
  | crop : Rect → Obs
deriving DecidableEq

instance : Inhabited Obs := ⟨Obs.noCrop⟩

/-- Decision value an observation maps to when it is chosen: Python `None`
for `NO_CROP`, else the crop string. -/
def obsToDecision : Obs → Option Rect
  | Obs.noCrop => none
  | Obs.crop r => some r

/-- One sample of the main loop, normalized: parse the raw analyzer report
(`_ffmpeg_sample` returns `"NO_CROP"` when no crop line is found), then map
a native-size crop (`cw == src_w and ch == src_h`, *string* comparison
against `str(vid_width)`/`str(vid_height)`) to `NO_CROP`. -/
def stepObs (srcW srcH : Nat) (raw : List Char) : Obs :=
  match parse_last_cropdetect raw with
  | none => Obs.noCrop
  | some r =>
    if r.w = natStr srcW ∧ r.h = natStr srcH then Obs.noCrop else Obs.crop r

/-! ### Sampling scheduler -/

/-- Python `int()` applied to a float: truncation toward zero (the values it
is applied to in this code are durations `≥ 60`, where this is the floor). -/
def pyInt (q : ℚ) : ℤ := if q < 0 then ⌈q⌉ else ⌊q⌋

def MAX_SAMPLES : Nat := 7

/-- The `while` loop of `_gen_starts_known`: yield `s` while `s ≤ maxStart`
and fewer than `fuel` starts have been yielded, stepping by `step`. -/
def genStartsAux (maxStart step : ℤ) : ℤ → Nat → List ℤ
  | _, 0 => []
  | s, fuel + 1 => if s ≤ maxStart then s :: genStartsAux maxStart step (s + step) fuel else []

/-- Model of `_gen_starts_known(total, first_start, step_between_starts,
window, limit)`. -/
def gen_starts_known (total : ℚ) (firstStart stepBetweenStarts window : ℤ) (limit : Nat) : List ℤ :=
  let maxStart : ℤ := max 0 (pyInt total - (if window = 0 then 0 else window) - 1)
  genStartsAux maxStart stepBetweenStarts (max 0 firstStart) limit

/-- The per-bracket sampling parameters of `detect_plack_bars`: `none` for
the short-file branch (`total_duration is not None and total_duration < 60`,
a single whole-file pass handled outside the loop), else the list of window
start times together with `sample_len`. -/
def mainParams (dur : Option ℚ) : Option (List ℤ × ℤ) :=
  match dur with
  | some d =>
    if d < 60 then none
    else if d ≤ 5 * 60 then some (gen_starts_known d 30 (10 + 5) 10 MAX_SAMPLES, 10)
    else if d ≤ 10 * 60 then some (gen_starts_known d 90 (20 + 30) 20 MAX_SAMPLES, 20)
    else some (gen_starts_known d 300 (20 + 90) 20 MAX_SAMPLES, 20)
  | none => some (((List.range MAX_SAMPLES).map fun i : Nat => 0 + 30 * (i : ℤ)), 10)

/-- A scheduled sample window: start offset and optional `-t` length
(`none` = analyze to end of file). -/
structure SampleWindow where
  start : ℤ
  len : Option ℤ
deriving DecidableEq

/-- The full window sequence the scheduler yields for a resolved duration:
the short-file branch runs `_ffmpeg_sample(ss=0, t_seconds=None)` once; the
other brackets run `_ffmpeg_sample(ss, sample_len)` for each start. -/
def scheduleWindows (dur : Option ℚ) : List SampleWindow :=
  match mainParams dur with
  | none => [⟨0, none⟩]
  | some (starts, len) => starts.map fun s => ⟨s, some len⟩

/-! ### Quorum and the rolling loop -/

/-- Model of `_quorum(last_three)`.  For the length-3 call (the only one the
loop makes) at most one value can occur at least twice, so the
`Counter.most_common` scan returns the unique crop value with count ≥ 2 when
there is one; both remaining outcomes of the Python function are `None`.
(The `≥ 4`-element behaviour of `Counter.most_common` is unreachable:
`last_three` is popped to length 3 before every call.) -/
def quorum (lastThree : List Obs) : Option Rect :=
  match lastThree with
  | [] => none
  | [_] => none
  | [a, b] => if a = b then obsToDecision a else none
  | l =>
    match l.find? (fun v => decide (v ≠ Obs.noCrop) && decide (2 ≤ l.count v)) with
    | some (Obs.crop r) => some r
    | _ => none

/-- Rolling-window push: append, then `pop(0)` once the length exceeds 3. -/
def pushWindow (lt : List Obs) (o : Obs) : List Obs :=
  let l0 := lt ++ [o]
  if 3 < l0.length then l0.tail else l0

/-- Engine state threaded through the sampling loop.  `log` is the list of
all normalized observations taken so far, in order (ghost data used to state
invariants; the Python code keeps only `last_three`, `third_sample_value`
and `samples_taken`). -/
structure DetState where
  lastThree : List Obs
  thirdSample : Option Obs
  samplesTaken : Nat
  log : List Obs
deriving DecidableEq

def initState : DetState := ⟨[], none, 0, []⟩

/-- The per-iteration decision checks of the loop body, applied to the
updated rolling window: the 2/2 early exit when exactly 2 observations have
been taken, then the 2-of-3 checks once the window holds 3.  `some d` is a
`return d` in the Python body, `none` falls through to the next sample. -/
def loopStep (w : List Obs) : Option (Option Rect) :=
  match w with
  | [a, b] =>
    -- early stop after 2 if identical
    if a = b then some (obsToDecision a) else none
  | [a, b, c] =>
    -- from 3 onward: 2-of-3 quorum on the rolling window
    match quorum [a, b, c] with
    | some r => some (some r)
    | none =>
      if 2 <= [a, b, c].count Obs.noCrop then some none else none
  | _ => none

/-- The rolling quorum loop of `detect_plack_bars`.  `outputs` scripts the
external analyzer: the `k`-th executed sample reads raw text `outputs[k]`
(missing entries read as empty text, i.e. `NO_CROP`).  Result: `some d`
when the loop returns decision `d` (`d = none` is the Python `return None`),
`none` when the start list is exhausted without a decision. -/
def runLoop (srcW srcH : Nat) (outputs : List (List Char)) :
    List ℤ → DetState → Option (Option Rect) × DetState
  | [], st => (none, st)
  | _ss :: rest, st =>
    if MAX_SAMPLES ≤ st.samplesTaken then (none, st)
    else
      let observed := stepObs srcW srcH (outputs.getD st.samplesTaken [])
      let taken := st.samplesTaken + 1
      let third := if taken = 3 then some observed else st.thirdSample
      let lt := pushWindow st.lastThree observed
      let st' : DetState := ⟨lt, third, taken, st.log ++ [observed]⟩
      match loopStep lt with
      | some dec => (some dec, st')
      | none => runLoop srcW srcH outputs rest st'

/-- The fallback chain after the loop exhausts its windows. -/
def fallbackDecision (st : DetState) : Option Rect :=
  match st.thirdSample with
  | some v => obsToDecision v
  | none =>
    match st.lastThree.reverse.find? (fun v => decide (v ≠ Obs.noCrop)) with
    | some (Obs.crop r) => some r
    | _ => none

/-- Full model of `detect_plack_bars`, also returning the final engine state
(the Python function returns only the decision).  `srcW`/`srcH` are the
probed frame dimensions, `dur` the resolved duration, `outputs` the
scripted analyzer reports in schedule order. -/
def detectRun (srcW srcH : Nat) (dur : Option ℚ) (outputs : List (List Char)) :
    Option Rect × DetState :=
  match mainParams dur with
  | none =>
    -- duration < 60s: one whole-file pass, decided inline
    let raw := outputs.getD 0 []
    let res : Option Rect :=
      match parse_last_cropdetect raw with
      | some r => if r.w = natStr srcW ∧ r.h = natStr srcH then none else some r
      | none => none
    (res, ⟨[], none, 1, [stepObs srcW srcH raw]⟩)
  | some (starts, _len) =>
    match runLoop srcW srcH outputs starts initState with
    | (some d, st) => (d, st)
    | (none, st) => (fallbackDecision st, st)

/-- Decision-only view, matching the Python function's return value. -/
def detect_plack_bars (srcW srcH : Nat) (dur : Option ℚ) (outputs : List (List Char)) :
    Option Rect :=
  (detectRun srcW srcH dur outputs).1

/-! ### Probe metadata and the duration resolver

JSON values as produced by `json.loads` on ffprobe output: `null`, booleans,
numbers (modelled exactly as rationals), strings, arrays, objects.  Python
`dict.get` on a missing key and a JSON `null` value both yield `None`; the
embedding keeps them distinct in `jget` (`none` vs `some J.null`) and the
resolver treats both as absent exactly where the source checks
`is not None`. -/

inductive J where
  | null : J
  | jbool : Bool → J
  | jnum : ℚ → J
  | jstr : List Char → J
  | jarr : List J → J
  | jobj : List (List Char × J) → J

/-- `dict.get`: first binding of the key, if any. -/
def jget (kvs : List (List Char × J)) (k : List Char) : Option J :=
  match kvs.find? (fun p => decide (p.1 = k)) with
  | some p => some p.2
  | none => none

def jIsNull : J → Bool
  | J.null => true
  | _ => false

/-- Is this `Option J` a given string value (Python `x == "…"` where `x` came
from `dict.get`)? -/
def jIsStrVal (v : Option J) (s : List Char) : Bool :=
  match v with
  | some (J.jstr t) => decide (t = s)
  | _ => false

def isPyWS (c : Char) : Bool :=
  c = ' ' || c = '\t' || c = '\n' || c = '\r' || c = '\x0b' || c = '\x0c'

/-- Signed decimal float literal parsing, a model of Python `float(str)` on
the grammar `[ws] [+|-] (digits [. digits] | . digits) [ (e|E) [+|-] digits ]
[ws]` (the exotic accepted forms — `inf`, `nan`, digit underscores — do not
occur in probe metadata and are modelled as failures). -/
def parseFloatStr (s : List Char) : Option ℚ :=
  let t := ((s.dropWhile isPyWS).reverse.dropWhile isPyWS).reverse
  let (sgn, t) : ℚ × List Char :=
    match t with
    | '+' :: r => (1, r)
    | '-' :: r => (-1, r)
    | r => (1, r)
  let intPart := t.takeWhile Char.isDigit
  let t1 := t.dropWhile Char.isDigit
  let (fracPart, t2) : List Char × List Char :=
    match t1 with
    | '.' :: r => (r.takeWhile Char.isDigit, r.dropWhile Char.isDigit)
    | r => ([], r)
  let hasDot : Bool := match t1 with | '.' :: _ => true | _ => false
  if intPart = [] ∧ (¬ hasDot ∨ fracPart = []) then none
  else
    let mant : ℚ := (digitsVal intPart : ℚ) + (digitsVal fracPart : ℚ) / ((10 : ℚ) ^ fracPart.length)
    match t2 with
    | [] => some (sgn * mant)
    | 'e' :: r | 'E' :: r =>
      let (esgn, r1) : ℤ × List Char :=
        match r with
        | '+' :: r2 => (1, r2)
        | '-' :: r2 => (-1, r2)
        | r2 => (1, r2)
      let eDigits := r1.takeWhile Char.isDigit
      if eDigits = [] ∨ r1.dropWhile Char.isDigit ≠ [] then none
      else some (sgn * mant * (10 : ℚ) ^ (esgn * (digitsVal eDigits : ℤ)))
    | _ => none

/-- Python `float(x)` on a JSON value: numbers and booleans convert,
strings parse, everything else raises `TypeError` (always caught at the call
sites, hence `none`). -/
def pyFloat : J → Option ℚ
  | J.jnum q => some q
  | J.jbool b => some (if b then 1 else 0)
  | J.jstr s => parseFloatStr s
  | _ => none

def fmtKey : List Char := "format".toList
def durationKey : List Char := "duration".toList
def streamsKey : List Char := "streams".toList
def codecTypeKey : List Char := "codec_type".toList
def videoStr : List Char := "video".toList
def tagsKey : List Char := "tags".toList
def DURATIONKey : List Char := "DURATION".toList

/-- The `for s in streams` loop of `_get_video_duration_seconds_from_probe`:
each stream whose `codec_type` equals `"video"` has its `duration` field
tried with `float(…)`; the first successful parse is returned.  A non-object
element raises `AttributeError` at `s.get` (uncaught in the source). -/
def streamLoop : List J → Except Unit (Option ℚ)
  | [] => .ok none
  | s :: rest =>
    match s with
    | J.jobj skvs =>
      if jIsStrVal (jget skvs codecTypeKey) videoStr then
        match jget skvs durationKey with
        | some dur =>
          if jIsNull dur then streamLoop rest
          else
            match pyFloat dur with
            | some q => .ok (some q)
            | none => streamLoop rest
        | none => streamLoop rest
      else streamLoop rest
    | _ => .error ()

/-- The format-level branch: `fmt.get("duration")` parsed with `float` when
present and non-null. -/
def fmtDuration (fmt : Option J) : Option ℚ :=
  match fmt with
  | some (J.jobj fkvs) =>
    match jget fkvs durationKey with
    | some dur => if jIsNull dur then none else pyFloat dur
    | none => none
  | _ => none

/-- The tags branch: `fmt["tags"]["DURATION"]`, a nonempty string split on
`:` with at least 3 parts, each of the first three parsed with `float`. -/
def tagsDuration (fmt : Option J) : Option ℚ :=
  match fmt with
  | some (J.jobj fkvs) =>
    match jget fkvs tagsKey with
    | some (J.jobj tkvs) =>
      match jget tkvs DURATIONKey with
      | some (J.jstr ts) =>
        if ts = [] then none
        else
          match splitOn ':' ts with
          | p0 :: p1 :: p2 :: _ =>
            match parseFloatStr p0, parseFloatStr p1, parseFloatStr p2 with
            | some h, some m, some s => some (h * 3600 + m * 60 + s)
            | _, _, _ => none
          | _ => none
      | _ => none
    | _ => none
  | _ => none

/-- `_probe.get("format") if isinstance(_probe, dict) else None`. -/
def probeFmt (probe : J) : Option J :=
  match probe with
  | J.jobj kvs => jget kvs fmtKey
  | _ => none

/-- `_probe.get("streams") if isinstance(_probe, dict) else None`. -/
def probeStreams (probe : J) : Option J :=
  match probe with
  | J.jobj kvs => jget kvs streamsKey
  | _ => none

/-- Model of `_get_video_duration_seconds_from_probe`.  `Except.error`
models an uncaught Python exception (only possible at `s.get` on a
non-object element of a `streams` list). -/
def get_video_duration_seconds_from_probe (probe : J) : Except Unit (Option ℚ) :=
  match fmtDuration (probeFmt probe) with
  | some q => .ok (some q)
  | none =>
    let afterStreams : Except Unit (Option ℚ) :=
      match probeStreams probe with
      | some (J.jarr xs) => streamLoop xs
      | _ => .ok none
    match afterStreams with
    | .error e => .error e
    | .ok (some q) => .ok (some q)
    | .ok none => .ok (tagsDuration (probeFmt probe))

/-! ### Scheduler lemmas -/

theorem genStartsAux_eq_takeWhile (maxS step : ℤ) (s : ℤ) (fuel : Nat) :
    genStartsAux maxS step s fuel =
      (((List.range fuel).map (fun i : Nat => s + step * (i : ℤ))).takeWhile (fun t => decide (t ≤ maxS))) := by
  induction fuel generalizing s with
  | zero => rfl
  | succ n ih =>
    rw [List.range_succ_eq_map]
    simp only [List.map_cons, List.map_map, List.takeWhile_cons]
    show genStartsAux maxS step s (n+1) = _
    rw [genStartsAux]
    by_cases h : s ≤ maxS
    · simp only [h, if_true, Nat.cast_zero, mul_zero, add_zero, decide_eq_true_eq, if_pos h]
      have hfun : (fun i : Nat => s + step + step * (i : ℤ)) =
          ((fun i : Nat => s + step * (i : ℤ)) ∘ Nat.succ) := by
        funext i
        simp only [Function.comp_apply]
        push_cast
        ring
      rw [ih, hfun]
    · simp [h, mul_zero]

theorem length_genStartsAux_le (maxS step s : ℤ) (fuel : Nat) :
    (genStartsAux maxS step s fuel).length ≤ fuel := by
  rw [genStartsAux_eq_takeWhile]
  calc (((List.range fuel).map (fun i : Nat => s + step * (i : ℤ))).takeWhile
          (fun t => decide (t ≤ maxS))).length
      ≤ ((List.range fuel).map (fun i : Nat => s + step * (i : ℤ))).length :=
        (List.takeWhile_sublist _).length_le
    _ = fuel := by rw [List.length_map, List.length_range]

theorem mem_genStartsAux (maxS step s x : ℤ) (fuel : Nat)
    (hx : x ∈ genStartsAux maxS step s fuel) :
    x ≤ maxS ∧ ∃ i : Nat, i < fuel ∧ x = s + step * i := by
  rw [genStartsAux_eq_takeWhile] at hx
  refine ⟨by simpa using List.mem_takeWhile_imp hx, ?_⟩
  have hmem := (List.takeWhile_sublist (fun t => decide (t ≤ maxS))).mem hx
  simp only [List.mem_map, List.mem_range] at hmem
  obtain ⟨i, hi, hieq⟩ := hmem
  exact ⟨i, hi, hieq.symm⟩

theorem pyInt_of_nonneg {q : ℚ} (h : 0 ≤ q) : pyInt q = ⌊q⌋ := by
  unfold pyInt
  rw [if_neg (not_lt.mpr h)]

theorem pyInt_le {q : ℚ} (h : 0 ≤ q) : (pyInt q : ℚ) ≤ q := by
  rw [pyInt_of_nonneg h]
  exact Int.floor_le q

theorem le_pyInt {q : ℚ} (n : ℤ) (h0 : 0 ≤ q) (h : (n : ℚ) ≤ q) : n ≤ pyInt q := by
  rw [pyInt_of_nonneg h0]
  exact Int.le_floor.mpr h

theorem gen_starts_known_eq (d : ℚ) (f step w : ℤ) (hf : 0 ≤ f) (hw : w ≠ 0)
    (hm : 0 ≤ pyInt d - w - 1) :
    gen_starts_known d f step w MAX_SAMPLES =
      ((List.range 7).map (fun i : Nat => f + step * (i : ℤ))).takeWhile
        (fun t => decide (t ≤ pyInt d - w - 1)) := by
  unfold gen_starts_known
  rw [if_neg hw, max_eq_right hm, max_eq_right hf]
  exact genStartsAux_eq_takeWhile _ _ _ _

theorem pyInt_ge_sixty {d : ℚ} (hd : 60 ≤ d) : 60 ≤ pyInt d :=
  le_pyInt 60 (by linarith) (by exact_mod_cast hd)

/-- Claim C4: the bracket table of the sampling scheduler.  For a known
duration below 60 s a single whole-file window; for unknown duration seven
10-second windows at starts 0,30,…,180; for the three known brackets the
scheduled starts are the initial arithmetic progression (first start 30/90/
300, step 15/50/110, window length 10/10/20) truncated at the last start
not exceeding `int(d) − length − 1`, with at most `MAX_SAMPLES = 7` windows
in every bracket. -/
theorem claim_C4_bracket_table (dur : Option ℚ) :
    (scheduleWindows dur).length ≤ MAX_SAMPLES ∧
    (dur = none →
      scheduleWindows dur =
        [⟨0, some 10⟩, ⟨30, some 10⟩, ⟨60, some 10⟩, ⟨90, some 10⟩,
         ⟨120, some 10⟩, ⟨150, some 10⟩, ⟨180, some 10⟩]) ∧
    (∀ d : ℚ, dur = some d → d < 60 → scheduleWindows dur = [⟨0, none⟩]) ∧
    (∀ d : ℚ, dur = some d → 60 ≤ d → d ≤ 300 →
      scheduleWindows dur =
        (((List.range 7).map (fun i : Nat => (30 : ℤ) + 15 * (i : ℤ))).takeWhile
          (fun t => decide (t ≤ pyInt d - 10 - 1))).map (fun s => ⟨s, some 10⟩)) ∧
    (∀ d : ℚ, dur = some d → 300 < d → d ≤ 600 →
      scheduleWindows dur =
        (((List.range 7).map (fun i : Nat => (90 : ℤ) + 50 * (i : ℤ))).takeWhile
          (fun t => decide (t ≤ pyInt d - 20 - 1))).map (fun s => ⟨s, some 20⟩)) ∧
    (∀ d : ℚ, dur = some d → 600 < d →
      scheduleWindows dur =
        (((List.range 7).map (fun i : Nat => (300 : ℤ) + 110 * (i : ℤ))).takeWhile
          (fun t => decide (t ≤ pyInt d - 20 - 1))).map (fun s => ⟨s, some 20⟩)) := by
  refine ⟨?_, ?_, ?_, ?_, ?_, ?_⟩
  · -- length cap
    unfold scheduleWindows mainParams
    match dur with
    | none => simp [MAX_SAMPLES]
    | some d =>
      by_cases h1 : d < 60
      · simp [h1, MAX_SAMPLES]
      · by_cases h2 : d ≤ 5 * 60
        · simp only [h1, if_false, h2, if_true]
          rw [List.length_map]
          exact length_genStartsAux_le _ _ _ _
        · by_cases h3 : d ≤ 10 * 60
          · simp only [h1, if_false, h2, h3, if_true]
            rw [List.length_map]
            exact length_genStartsAux_le _ _ _ _
          · simp only [h1, if_false, h2, h3]
            rw [List.length_map]
            exact length_genStartsAux_le _ _ _ _
  · rintro rfl
    decide
  · rintro d rfl hlt
    unfold scheduleWindows mainParams
    simp [hlt]
  · rintro d rfl h60 h300
    have h1 : ¬ d < 60 := not_lt.mpr h60
    have h2 : d ≤ 5 * 60 := by linarith
    unfold scheduleWindows mainParams
    simp only [h1, if_false, h2, if_true]
    rw [gen_starts_known_eq d 30 (10 + 5) 10 (by norm_num) (by norm_num)
      (by have := pyInt_ge_sixty h60; omega)]
    norm_num
  · rintro d rfl h300 h600
    have h1 : ¬ d < 60 := not_lt.mpr (by linarith)
    have h2 : ¬ d ≤ 5 * 60 := not_le.mpr (by linarith)
    have h3 : d ≤ 10 * 60 := by linarith
    unfold scheduleWindows mainParams
    simp only [h1, if_false, h2, h3, if_true]
    rw [gen_starts_known_eq d 90 (20 + 30) 20 (by norm_num) (by norm_num)
      (by have := pyInt_ge_sixty (show (60:ℚ) ≤ d by linarith); omega)]
    norm_num
  · rintro d rfl h600
    have h1 : ¬ d < 60 := not_lt.mpr (by linarith)
    have h2 : ¬ d ≤ 5 * 60 := not_le.mpr (by linarith)
    have h3 : ¬ d ≤ 10 * 60 := not_le.mpr (by linarith)
    unfold scheduleWindows mainParams
    simp only [h1, if_false, h2, h3]
    rw [gen_starts_known_eq d 300 (20 + 90) 20 (by norm_num) (by norm_num)
      (by have := pyInt_ge_sixty (show (60:ℚ) ≤ d by linarith); omega)]
    norm_num

/-- Witness for C4: the bracket table evaluated at one duration of each
bracket. -/
theorem claim_C4_bracket_table_witness :
    scheduleWindows (some 30) = [⟨0, none⟩] ∧
    scheduleWindows none =
      [⟨0, some 10⟩, ⟨30, some 10⟩, ⟨60, some 10⟩, ⟨90, some 10⟩,
       ⟨120, some 10⟩, ⟨150, some 10⟩, ⟨180, some 10⟩] ∧
    scheduleWindows (some 120) =
      (((List.range 7).map (fun i : Nat => (30 : ℤ) + 15 * (i : ℤ))).takeWhile
        (fun t => decide (t ≤ pyInt 120 - 10 - 1))).map (fun s => ⟨s, some 10⟩) ∧
    scheduleWindows (some 400) =
      (((List.range 7).map (fun i : Nat => (90 : ℤ) + 50 * (i : ℤ))).takeWhile
        (fun t => decide (t ≤ pyInt 400 - 20 - 1))).map (fun s => ⟨s, some 20⟩) ∧
    scheduleWindows (some 700) =
      (((List.range 7).map (fun i : Nat => (300 : ℤ) + 110 * (i : ℤ))).takeWhile
        (fun t => decide (t ≤ pyInt 700 - 20 - 1))).map (fun s => ⟨s, some 20⟩) :=
  ⟨(claim_C4_bracket_table (some 30)).2.2.1 30 rfl (by norm_num),
   (claim_C4_bracket_table none).2.1 rfl,
   (claim_C4_bracket_table (some 120)).2.2.2.1 120 rfl (by norm_num) (by norm_num),
   (claim_C4_bracket_table (some 400)).2.2.2.2.1 400 rfl (by norm_num) (by norm_num),
   (claim_C4_bracket_table (some 700)).2.2.2.2.2 700 rfl (by norm_num)⟩

/-- Claim C5: the 1-second trailing buffer.  For every known duration
`d ≥ 60`, every window the scheduler yields has `start + length ≤ d − 1`. -/
theorem claim_C5_trailing_buffer (d : ℚ) (hd : 60 ≤ d) (w : SampleWindow)
    (hw : w ∈ scheduleWindows (some d)) (L : ℤ) (hL : w.len = some L) :
    (w.start : ℚ) + (L : ℚ) ≤ d - 1 := by
  have hd0 : (0 : ℚ) ≤ d := by linarith
  have h1 : ¬ d < 60 := not_lt.mpr hd
  unfold scheduleWindows mainParams at hw
  simp only [h1, if_false] at hw
  have hfloor : (pyInt d : ℚ) ≤ d := pyInt_le hd0
  -- in every known bracket the window comes from `gen_starts_known` with a
  -- positive first start and nonnegative step, so each start `s` satisfies
  -- `30 ≤ s ≤ max 0 (pyInt d - win - 1)`, forcing the `max` to drop
  have key : ∀ (f step win : ℤ), 30 ≤ f → 0 ≤ step → win ≠ 0 →
      w ∈ (gen_starts_known d f step win MAX_SAMPLES).map
        (fun s => SampleWindow.mk s (some win)) →
      (w.start : ℚ) + (win : ℚ) ≤ d - 1 := by
    intro f step win hf hstep hwin hmem
    simp only [List.mem_map] at hmem
    obtain ⟨s, hs, rfl⟩ := hmem
    unfold gen_starts_known at hs
    rw [if_neg hwin, max_eq_right (by omega : (0:ℤ) ≤ f)] at hs
    obtain ⟨hle, i, _hi, hform⟩ := mem_genStartsAux _ _ _ _ _ hs
    have hs30 : (30 : ℤ) ≤ s := by
      have : (0 : ℤ) ≤ step * i := mul_nonneg hstep (by positivity)
      omega
    have hbound : s ≤ pyInt d - win - 1 := by
      rcases le_or_lt 0 (pyInt d - win - 1) with h | h
      · rwa [max_eq_right h] at hle
      · rw [max_eq_left (by omega)] at hle
        omega
    have hcast : (s : ℚ) + (win : ℚ) ≤ (pyInt d : ℚ) - 1 := by
      have hq : (s : ℚ) ≤ (pyInt d : ℚ) - (win : ℚ) - 1 := by exact_mod_cast hbound
      linarith
    show ((s : ℚ)) + (win : ℚ) ≤ d - 1
    linarith
  by_cases h2 : d ≤ 5 * 60
  · simp only [h2, if_true] at hw
    have hkey := key 30 (10 + 5) 10 (by norm_num) (by norm_num) (by norm_num) hw
    simp only [List.mem_map] at hw
    obtain ⟨s, _, rfl⟩ := hw
    simp only [Option.some.injEq] at hL
    subst hL
    exact hkey
  · by_cases h3 : d ≤ 10 * 60
    · simp only [h2, if_false, h3, if_true] at hw
      have hkey := key 90 (20 + 30) 20 (by norm_num) (by norm_num) (by norm_num) hw
      simp only [List.mem_map] at hw
      obtain ⟨s, _, rfl⟩ := hw
      simp only [Option.some.injEq] at hL
      subst hL
      exact hkey
    · simp only [h2, if_false, h3] at hw
      have hkey := key 300 (20 + 90) 20 (by norm_num) (by norm_num) (by norm_num) hw
      simp only [List.mem_map] at hw
      obtain ⟨s, _, rfl⟩ := hw
      simp only [Option.some.injEq] at hL
      subst hL
      exact hkey

/-! ### Quorum lemmas -/

theorem quorum3_crop (a b c : Obs) (r : Rect) (h : 2 ≤ ([a, b, c].count (Obs.crop r))) :
    quorum [a, b, c] = some r := by
  by_cases ha : a = Obs.crop r
  · subst ha
    have hpred : (decide ((Obs.crop r) ≠ Obs.noCrop) &&
        decide (2 ≤ ([Obs.crop r, b, c].count (Obs.crop r)))) = true := by
      simp only [Bool.and_eq_true, decide_eq_true_eq]
      exact ⟨by simp, h⟩
    simp only [quorum, List.find?]
    rw [hpred]
  · -- then both b and c must equal `crop r`
    have hbc : b = Obs.crop r ∧ c = Obs.crop r := by
      by_contra hcon
      have hca : ([a, b, c].count (Obs.crop r)) ≤ 1 := by
        by_cases h1 : b = Obs.crop r
        · have h2 : ¬ c = Obs.crop r := fun hc => hcon ⟨h1, hc⟩
          simp [List.count_cons, ha, h1, h2]
        · by_cases h2 : c = Obs.crop r <;> simp [List.count_cons, ha, h1, h2]
      omega
    obtain ⟨hb, hc⟩ := hbc
    subst hb hc
    -- `find?` skips `a` (it is `noCrop` or a crop of count 1), then hits `b`
    have hpreda : (decide (a ≠ Obs.noCrop) &&
        decide (2 ≤ ([a, Obs.crop r, Obs.crop r].count a))) = false := by
      cases a with
      | noCrop => simp
      | crop s =>
        have hsr : ¬ (Obs.crop r = Obs.crop s) := by
          intro hh
          exact ha (by injection hh with h2; rw [h2])
        simp only [Bool.and_eq_false_iff, decide_eq_false_iff_not, not_le]
        right
        simp [List.count_cons, hsr]
    have hpredb : (decide ((Obs.crop r) ≠ Obs.noCrop) &&
        decide (2 ≤ ([a, Obs.crop r, Obs.crop r].count (Obs.crop r)))) = true := by
      simp only [Bool.and_eq_true, decide_eq_true_eq]
      refine ⟨by simp, ?_⟩
      simp [List.count_cons]
    simp only [quorum, List.find?]
    rw [hpreda, hpredb]

theorem quorum3_none (a b c : Obs) (h : ∀ r : Rect, ([a, b, c].count (Obs.crop r)) < 2) :
    quorum [a, b, c] = none := by
  have hfind : ([a, b, c].find? (fun v => decide (v ≠ Obs.noCrop) &&
      decide (2 ≤ ([a, b, c].count v)))) = none := by
    rw [List.find?_eq_none]
    intro x _hx
    cases x with
    | noCrop => simp
    | crop r =>
      intro hcontra
      simp only [Bool.and_eq_true, decide_eq_true_eq] at hcontra
      exact absurd hcontra.2 (by have := h r; omega)
  simp only [quorum, hfind]

theorem loopStep3_crop (a b c : Obs) (r : Rect) (h : 2 ≤ ([a, b, c].count (Obs.crop r))) :
    loopStep [a, b, c] = some (some r) := by
  simp only [loopStep]
  rw [quorum3_crop a b c r h]

theorem loopStep3_noCrop (a b c : Obs) (hno : ∀ r : Rect, ([a, b, c].count (Obs.crop r)) < 2)
    (hnc : 2 ≤ ([a, b, c].count Obs.noCrop)) :
    loopStep [a, b, c] = some none := by
  simp only [loopStep]
  rw [quorum3_none a b c hno]
  simp only [if_pos hnc]

theorem loopStep3_continue (a b c : Obs) (hno : ∀ r : Rect, ([a, b, c].count (Obs.crop r)) < 2)
    (hnc : ([a, b, c].count Obs.noCrop) < 2) :
    loopStep [a, b, c] = none := by
  simp only [loopStep]
  rw [quorum3_none a b c hno]
  simp only [if_neg (not_le.mpr hnc)]

/-- Claim C1: the rolling quorum rule.  At any loop step at which the new
observation is the 3rd or later (no earlier decision having fired, the
rolling window holding the most recent observations), the engine evaluates
the window of the 3 most recent normalized observations: a non-`NoCrop`
value occurring at least twice is returned at once; otherwise two
`NoCrop`s decide "no crop" (`None`); otherwise the loop continues with the
remaining starts. -/
theorem claim_C1_rolling_quorum (srcW srcH : Nat) (outputs : List (List Char))
    (ss : ℤ) (rest : List ℤ) (st : DetState)
    (hcap : st.samplesTaken < MAX_SAMPLES)
    (hlen : (st.lastThree.length = 2 ∧ st.samplesTaken = 2) ∨
            (st.lastThree.length = 3 ∧ 3 ≤ st.samplesTaken)) :
    (∀ r : Rect,
      2 ≤ ((pushWindow st.lastThree (stepObs srcW srcH (outputs.getD st.samplesTaken []))).count
            (Obs.crop r)) →
      (runLoop srcW srcH outputs (ss :: rest) st).1 = some (some r)) ∧
    ((∀ r : Rect,
        ((pushWindow st.lastThree (stepObs srcW srcH (outputs.getD st.samplesTaken []))).count
          (Obs.crop r)) < 2) →
      2 ≤ ((pushWindow st.lastThree (stepObs srcW srcH (outputs.getD st.samplesTaken []))).count
            Obs.noCrop) →
      (runLoop srcW srcH outputs (ss :: rest) st).1 = some none) ∧
    ((∀ r : Rect,
        ((pushWindow st.lastThree (stepObs srcW srcH (outputs.getD st.samplesTaken []))).count
          (Obs.crop r)) < 2) →
      ((pushWindow st.lastThree (stepObs srcW srcH (outputs.getD st.samplesTaken []))).count
        Obs.noCrop) < 2 →
      runLoop srcW srcH outputs (ss :: rest) st =
        runLoop srcW srcH outputs rest
          ⟨pushWindow st.lastThree (stepObs srcW srcH (outputs.getD st.samplesTaken [])),
           if st.samplesTaken + 1 = 3 then
             some (stepObs srcW srcH (outputs.getD st.samplesTaken []))
           else st.thirdSample,
           st.samplesTaken + 1,
           st.log ++ [stepObs srcW srcH (outputs.getD st.samplesTaken [])]⟩) := by
  have hne : ¬ (MAX_SAMPLES ≤ st.samplesTaken) := not_le.mpr hcap
  -- the pushed window always has exactly 3 entries here
  obtain ⟨a, b, c, hw3⟩ : ∃ a b c, pushWindow st.lastThree
      (stepObs srcW srcH (outputs.getD st.samplesTaken [])) = [a, b, c] := by
    rcases hlen with ⟨h2, -⟩ | ⟨h3, -⟩
    · obtain ⟨x, y, hxy⟩ := List.length_eq_two.mp h2
      rw [hxy]
      exact ⟨x, y, stepObs srcW srcH (outputs.getD st.samplesTaken []),
        by simp [pushWindow]⟩
    · obtain ⟨x, y, z, hxyz⟩ := List.length_eq_three.mp h3
      rw [hxyz]
      exact ⟨y, z, stepObs srcW srcH (outputs.getD st.samplesTaken []),
        by simp [pushWindow]⟩
  refine ⟨?_, ?_, ?_⟩
  · intro r hr
    rw [hw3] at hr
    simp only [runLoop, hne, if_false, hw3]
    rw [loopStep3_crop a b c r hr]
  · intro hno hnc
    rw [hw3] at hno hnc
    simp only [runLoop, hne, if_false, hw3]
    rw [loopStep3_noCrop a b c hno hnc]
  · intro hno hnc
    rw [hw3] at hno hnc
    simp only [runLoop, hne, if_false, hw3]
    rw [loopStep3_continue a b c hno hnc]

/-- Two scripted observations that agree make the loop stop at once with the
matching decision and exactly two samples taken. -/
theorem runLoop_two_equal (srcW srcH : Nat) (outputs : List (List Char))
    (s1 s2 : ℤ) (rest : List ℤ)
    (heq : stepObs srcW srcH (outputs.getD 1 []) = stepObs srcW srcH (outputs.getD 0 [])) :
    runLoop srcW srcH outputs (s1 :: s2 :: rest) initState =
      (some (obsToDecision (stepObs srcW srcH (outputs.getD 0 []))),
       ⟨[stepObs srcW srcH (outputs.getD 0 []), stepObs srcW srcH (outputs.getD 1 [])],
        none, 2,
        [stepObs srcW srcH (outputs.getD 0 []), stepObs srcW srcH (outputs.getD 1 [])]⟩) := by
  have heq' : stepObs srcW srcH (outputs[1]?.getD []) = stepObs srcW srcH (outputs[0]?.getD []) := by
    simpa [List.getD_eq_getElem?_getD] using heq
  simp only [runLoop, initState, MAX_SAMPLES, pushWindow, List.getD_eq_getElem?_getD]
  norm_num [heq', loopStep]

/-- Claim C2: the early-exit rule.  Whenever the scheduler yields at least
two windows and the first two normalized observations are equal, the engine
decides after exactly 2 analyzer invocations — `None` if the shared value is
`NoCrop`, else that rectangle — and no further scheduled window is
executed. -/
theorem claim_C2_early_exit (srcW srcH : Nat) (dur : Option ℚ)
    (outputs : List (List Char)) (starts : List ℤ) (len : ℤ) (s1 s2 : ℤ) (rest : List ℤ)
    (hmp : mainParams dur = some (starts, len))
    (hstarts : starts = s1 :: s2 :: rest)
    (heq : stepObs srcW srcH (outputs.getD 1 []) = stepObs srcW srcH (outputs.getD 0 [])) :
    (detectRun srcW srcH dur outputs).1 =
      obsToDecision (stepObs srcW srcH (outputs.getD 0 [])) ∧
    (detectRun srcW srcH dur outputs).2.samplesTaken = 2 := by
  subst hstarts
  unfold detectRun
  rw [hmp]
  simp only
  rw [runLoop_two_equal srcW srcH outputs s1 s2 rest heq]
  exact ⟨rfl, rfl⟩

/-! ### Engine state invariant -/

/-- The suffix of the last `n` elements. -/
def lastN (n : Nat) (l : List Obs) : List Obs := l.drop (l.length - n)

/-- Structural invariant tying the Python loop state to the observation
log: `samples_taken` counts the log, `last_three` is the last 3 entries,
`third_sample_value` is the 3rd entry when it exists. -/
def StInv (st : DetState) : Prop :=
  st.log.length = st.samplesTaken ∧
  st.lastThree = lastN 3 st.log ∧
  st.thirdSample = st.log[2]?

theorem stInv_init : StInv initState := by
  refine ⟨rfl, rfl, rfl⟩

theorem lastN_append (l : List Obs) (o : Obs) :
    pushWindow (lastN 3 l) o = lastN 3 (l ++ [o]) := by
  unfold pushWindow lastN
  rcases le_or_lt l.length 2 with h | h
  · have h1 : l.length - 3 = 0 := by omega
    have h2 : l.length + 1 - 3 = 0 := by omega
    simp only [h1, List.drop_zero, List.length_append, List.length_cons, List.length_nil, h2]
    have h3 : ¬ (3 < (l ++ [o]).length) := by
      simp only [List.length_append, List.length_cons, List.length_nil]
      omega
    simp only [List.length_append, List.length_cons, List.length_nil] at h3 ⊢
    rw [if_neg (by omega : ¬ 3 < l.length + (0 + 1))]
  · have hlen : (lastN 3 l).length = 3 := by
      unfold lastN
      rw [List.length_drop]
      omega
    unfold lastN at hlen
    have hgt : 3 < (l.drop (l.length - 3) ++ [o]).length := by
      rw [List.length_append, List.length_drop]
      simp only [List.length_cons, List.length_nil]
      omega
    rw [if_pos hgt]
    have hd : (l.drop (l.length - 3)) ≠ [] := by
      intro hnil
      rw [hnil] at hlen
      simp at hlen
    -- tail (drop k l ++ [o]) = drop (k+1) l ++ [o]
    obtain ⟨hdh, hdt, hcons⟩ : ∃ hh tt, l.drop (l.length - 3) = hh :: tt := by
      cases hdrop : l.drop (l.length - 3) with
      | nil => exact absurd hdrop hd
      | cons hh tt => exact ⟨hh, tt, rfl⟩
    rw [hcons]
    simp only [List.cons_append, List.tail_cons]
    have : l.drop (l.length - 3) = hdh :: hdt := hcons
    have hstep : l.drop (l.length - 3 + 1) = hdt := by
      have := congrArg List.tail hcons
      simpa [List.tail_drop] using this
    have harith : (l ++ [o]).length - 3 = l.length - 3 + 1 := by
      rw [List.length_append]
      simp only [List.length_cons, List.length_nil]
      omega
    rw [harith, List.drop_append_of_le_length (by omega), hstep]

theorem third_append (st : DetState) (o : Obs) (hlen : st.log.length = st.samplesTaken)
    (hth : st.thirdSample = st.log[2]?) :
    (if st.samplesTaken + 1 = 3 then some o else st.thirdSample) = (st.log ++ [o])[2]? := by
  by_cases h3 : st.samplesTaken + 1 = 3
  · rw [if_pos h3]
    have h2 : st.log.length = 2 := by omega
    rw [List.getElem?_append_right (by omega)]
    simp [h2]
  · rw [if_neg h3, hth]
    rcases lt_or_le 2 st.log.length with h | h
    · rw [List.getElem?_append_left (by omega)]
    · have h1 : st.log.length ≤ 1 := by omega
      rw [List.getElem?_eq_none (by omega), List.getElem?_eq_none (by
        rw [List.length_append]
        simp only [List.length_cons, List.length_nil]
        omega)]

theorem stInv_step (st : DetState) (o : Obs) (h : StInv st) :
    StInv ⟨pushWindow st.lastThree o,
           (if st.samplesTaken + 1 = 3 then some o else st.thirdSample),
           st.samplesTaken + 1, st.log ++ [o]⟩ := by
  obtain ⟨hlen, hlt, hth⟩ := h
  refine ⟨?_, ?_, ?_⟩
  · simp only [List.length_append, List.length_cons, List.length_nil]
    omega
  · simp only
    rw [hlt, lastN_append]
  · simp only
    exact third_append st o hlen hth

/-- The loop preserves the structural invariant. -/
theorem runLoop_inv (srcW srcH : Nat) (outputs : List (List Char)) :
    ∀ (starts : List ℤ) (st : DetState), StInv st →
      StInv (runLoop srcW srcH outputs starts st).2 := by
  intro starts
  induction starts with
  | nil =>
    intro st h
    exact h
  | cons ss rest ih =>
    intro st h
    by_cases hcap : MAX_SAMPLES ≤ st.samplesTaken
    · simp only [runLoop, hcap, if_true]
      exact h
    · have hst' := stInv_step st (stepObs srcW srcH (outputs.getD st.samplesTaken [])) h
      simp only [runLoop, hcap, if_false]
      cases hls : loopStep (pushWindow st.lastThree
          (stepObs srcW srcH (outputs.getD st.samplesTaken []))) with
      | some dec => exact hst'
      | none => exact ih _ hst'

/-- Claim C3: the exhaustion fallback order.  When the window sequence is
exhausted without an early-exit or quorum decision, the result is (1)
decided by the 3rd recorded observation when one exists (`None` if it was
`NoCrop`, else its rectangle); (2) otherwise — fewer than 3 samples were
ever taken — the most recent non-`NoCrop` retained observation if any; (3)
otherwise `None`. -/
theorem claim_C3_exhaustion_fallback (srcW srcH : Nat) (dur : Option ℚ)
    (outputs : List (List Char)) (starts : List ℤ) (len : ℤ)
    (hmp : mainParams dur = some (starts, len))
    (hex : (runLoop srcW srcH outputs starts initState).1 = none) :
    detect_plack_bars srcW srcH dur outputs =
      (match ((runLoop srcW srcH outputs starts initState).2.log)[2]? with
       | some v => obsToDecision v
       | none =>
         match ((runLoop srcW srcH outputs starts initState).2.log).reverse.find?
             (fun v => decide (v ≠ Obs.noCrop)) with
         | some (Obs.crop r) => some r
         | _ => none) := by
  have hinv := runLoop_inv srcW srcH outputs starts initState stInv_init
  unfold detect_plack_bars detectRun
  rw [hmp]
  simp only
  rcases hrl : runLoop srcW srcH outputs starts initState with ⟨res, stf⟩
  rw [hrl] at hex hinv
  simp only at hex
  subst hex
  simp only
  obtain ⟨hlen, hlt, hth⟩ := hinv
  unfold fallbackDecision
  rw [hth]
  cases hl2 : stf.log[2]? with
  | some v => rfl
  | none =>
    have hlen2 : stf.log.length ≤ 2 := by
      by_contra hgt
      rw [List.getElem?_eq_getElem (by omega)] at hl2
      exact Option.noConfusion hl2
    have hall : lastN 3 stf.log = stf.log := by
      unfold lastN
      rw [(by omega : stf.log.length - 3 = 0)]
      exact List.drop_zero _
    rw [hlt, hall]

/-! ### Concrete data for witnesses and counterexamples -/

def rect1 : Rect := ⟨['1'], ['1'], ['0'], ['0']⟩

def rect2 : Rect := ⟨['2'], ['2'], ['0'], ['0']⟩

def rect3 : Rect := ⟨['3'], ['3'], ['0'], ['0']⟩

def cdTxt (k : Char) : List Char :=
  "[Parsed_cropdetect]crop=".toList ++ [k, ':', k, ':', '0', ':', '0']

/-- Engine state after two disagreeing crop samples. -/
def c1State : DetState :=
  ⟨[Obs.crop rect1, Obs.crop rect2], none, 2, [Obs.crop rect1, Obs.crop rect2]⟩

def c3Outs : List (List Char) :=
  [cdTxt '1', cdTxt '2', cdTxt '3', cdTxt '4', cdTxt '5', cdTxt '6', cdTxt '7']

def unknownStarts : List ℤ := [0, 30, 60, 90, 120, 150, 180]

/-- Witness for C1: with rolling window `[rect1, rect2]` and a 3rd sample
reporting `rect1` again, the quorum fires and returns `rect1`. -/
theorem claim_C1_rolling_quorum_witness :
    (runLoop 100 100 [cdTxt '1', cdTxt '2', cdTxt '1'] [0] c1State).1 =
      some (some rect1) :=
  (claim_C1_rolling_quorum 100 100 [cdTxt '1', cdTxt '2', cdTxt '1'] 0 [] c1State
    (by decide) (by decide)).1 rect1 (by decide)

/-- Witness for C2: unknown duration, both of the first two samples report
no crop line; the engine decides `None` after exactly 2 invocations. -/
theorem claim_C2_early_exit_witness :
    detect_plack_bars 1920 1080 none [[], []] = none ∧
    (detectRun 1920 1080 none [[], []]).2.samplesTaken = 2 := by
  have h := claim_C2_early_exit 1920 1080 none [[], []] unknownStarts 10 0 30
    [60, 90, 120, 150, 180] (by decide) (by decide) (by decide)
  exact ⟨h.1.trans (by decide), h.2⟩

/-- Witness for C3: seven pairwise-distinct crop reports never reach a
quorum; the fallback decides by the 3rd sample. -/
theorem claim_C3_exhaustion_fallback_witness :
    detect_plack_bars 100 100 none c3Outs = some rect3 :=
  (claim_C3_exhaustion_fallback 100 100 none c3Outs unknownStarts 10
    (by decide) (by decide)).trans (by decide)

/-- Witness for C5: at duration 100 s the first window is `(30, 10)` and
indeed `30 + 10 ≤ 100 − 1`. -/
theorem claim_C5_trailing_buffer_witness :
    ((30 : ℤ) : ℚ) + ((10 : ℤ) : ℚ) ≤ (100 : ℚ) - 1 :=
  claim_C5_trailing_buffer 100 (by norm_num) ⟨30, some 10⟩
    (by
      have hmp : mainParams (some 100) =
          some (gen_starts_known 100 30 (10 + 5) 10 MAX_SAMPLES, 10) := by
        simp only [mainParams]
        rw [if_neg (by norm_num), if_pos (by norm_num)]
      have h : scheduleWindows (some 100) =
          [⟨30, some 10⟩, ⟨45, some 10⟩, ⟨60, some 10⟩, ⟨75, some 10⟩] := by
        unfold scheduleWindows
        rw [hmp]
        decide
      rw [h]
      exact List.mem_cons_self _ _) 10 rfl

/-! ### Positional characterization of the report parser

The implementation-side scanner (`scanFrom0`) is characterized against a
positional reading: a `crop=<quad>` occurrence at position `i` of a line is
captured exactly when the prefix before `i` contains the
`[Parsed_cropdetect` literal followed later by a `]`. -/

/-- The suffix one character past the first occurrence of
`[Parsed_cropdetect` (`none` when the literal does not occur).  The literal
contains no `]`, so searching for `]` in this suffix is the same as
searching after the literal's end. -/
def afterLit : List Char → Option (List Char)
  | [] => none
  | c :: rest => if litAt parsedLit (c :: rest) then some rest else afterLit rest

/-- Does this prefix contain `[Parsed_cropdetect` followed by a `]`? -/
def markedB (pre : List Char) : Bool :=
  match afterLit pre with
  | some rest => rest.contains ']'
  | none => false

/-- All positionally valid captured rectangles of a line: for each split
point `i`, the quad parsed at `i` when the prefix before `i` is marked. -/
def lineValidQuads (line : List Char) : List Rect :=
  (List.range (line.length + 1)).filterMap
    (fun i => if markedB (line.take i) then cropQuadAt (line.drop i) else none)

/-- The positional reading of `_parse_last_cropdetect`: the last valid
occurrence over all lines. -/
def lastValidCropSpec (text : List Char) : Option Rect :=
  ((splitOn '\n' text).map lineValidQuads).flatten.getLast?

/-- Does a `crop=<W>:<H>:<X>:<Y>` substring occur anywhere in the text?
(the reading of the parser contract that C6 asserts). -/
def hasCropQuad (text : List Char) : Bool :=
  (List.range (text.length + 1)).any (fun i => (cropQuadAt (text.drop i)).isSome)

/-! #### litAt lemmas -/

theorem litAt_length {lit l : List Char} (h : litAt lit l = true) : lit.length ≤ l.length := by
  induction lit generalizing l with
  | nil => simp
  | cons a as ih =>
    cases l with
    | nil => simp [litAt] at h
    | cons b bs =>
      simp only [litAt, Bool.and_eq_true, decide_eq_true_eq] at h
      have := ih h.2
      simp only [List.length_cons]
      omega

theorem litAt_decomp {lit l : List Char} (h : litAt lit l = true) :
    l = lit ++ l.drop lit.length := by
  induction lit generalizing l with
  | nil => simp
  | cons a as ih =>
    cases l with
    | nil => simp [litAt] at h
    | cons b bs =>
      simp only [litAt, Bool.and_eq_true, decide_eq_true_eq] at h
      obtain ⟨rfl, h2⟩ := h
      simp only [List.cons_append, List.length_cons, List.drop_succ_cons, List.cons.injEq,
        true_and]
      exact ih h2

theorem litAt_append (lit s : List Char) : litAt lit (lit ++ s) = true := by
  induction lit with
  | nil => rfl
  | cons a as ih => simp [litAt, ih]

theorem litAt_take {lit l : List Char} {n : Nat} (h : litAt lit (l.take n) = true) :
    litAt lit l = true := by
  induction lit generalizing l n with
  | nil => rfl
  | cons a as ih =>
    cases l with
    | nil => simpa using h
    | cons b bs =>
      cases n with
      | zero => simp [litAt] at h
      | succ m =>
        simp only [List.take_succ_cons, litAt, Bool.and_eq_true, decide_eq_true_eq] at h ⊢
        exact ⟨h.1, ih h.2⟩

theorem afterLit_short {l : List Char} (h : l.length < parsedLit.length) :
    afterLit l = none := by
  induction l with
  | nil => rfl
  | cons c rest ih =>
    rw [afterLit]
    have hlit : ¬ litAt parsedLit (c :: rest) = true := by
      intro hcon
      have := litAt_length hcon
      simp only [List.length_cons] at this h
      omega
    rw [if_neg hlit]
    exact ih (by simp only [List.length_cons] at h; omega)

theorem filterMapRangeSucc {β : Type} (f : Nat → Option β) (n : Nat) :
    (List.range (n + 1)).filterMap f =
      (f 0).toList ++ (List.range n).filterMap (fun j => f (j + 1)) := by
  rw [List.range_succ_eq_map, List.filterMap_cons, List.filterMap_map]
  have hcomp : (f ∘ Nat.succ) = (fun j => f (j + 1)) := rfl
  rw [hcomp]
  cases f 0 <;> simp

theorem scanFrom2_eq (l : List Char) :
    scanFrom2 l = (List.range (l.length + 1)).filterMap (fun i => cropQuadAt (l.drop i)) := by
  induction l with
  | nil =>
    have h0 : cropQuadAt ([] : List Char) = none := by decide
    simp [scanFrom2, filterMapRangeSucc, h0]
  | cons c rest ih =>
    rw [show (c :: rest).length + 1 = (rest.length + 1) + 1 from by simp]
    rw [filterMapRangeSucc]
    simp only [List.drop_zero, List.drop_succ_cons]
    rw [← ih]
    show scanFrom2 (c :: rest) = (cropQuadAt (c :: rest)).toList ++ scanFrom2 rest
    rw [scanFrom2]
    cases cropQuadAt (c :: rest) <;> rfl

theorem scanFrom1_eq (l : List Char) :
    scanFrom1 l = (List.range (l.length + 1)).filterMap
      (fun i => if (l.take i).contains ']' then cropQuadAt (l.drop i) else none) := by
  induction l with
  | nil => simp [scanFrom1, filterMapRangeSucc]
  | cons c rest ih =>
    rw [show (c :: rest).length + 1 = (rest.length + 1) + 1 from by simp]
    rw [filterMapRangeSucc]
    simp only [List.take_zero, List.take_succ_cons, List.drop_zero, List.drop_succ_cons,
      List.contains_nil, if_false, Option.toList_none, List.nil_append]
    by_cases hc : c = ']'
    · subst hc
      have hcont : ∀ j : Nat, ((']' :: rest.take j).contains ']') = true := by
        intro j
        simp [List.contains_cons]
      rw [scanFrom1]
      simp only [if_pos rfl, hcont, if_true]
      exact scanFrom2_eq rest
    · have hcont : ∀ j : Nat, ((c :: rest.take j).contains ']') = ((rest.take j).contains ']') := by
        intro j
        simp only [List.contains_cons, Bool.or_eq_true, beq_iff_eq]
        have : (']' == c) = false := by
          simp only [beq_eq_false_iff_ne, ne_eq]
          exact fun hcc => hc hcc.symm
        simp [this]
      rw [scanFrom1, if_neg hc]
      simp only [hcont]
      exact ih

theorem parsedLit_eq : parsedLit = '[' :: parsedLit.drop 1 := by decide

theorem afterLit_cons (x : Char) (l : List Char) :
    afterLit (x :: l) = if litAt parsedLit (x :: l) then some l else afterLit l := rfl

theorem scanFrom0_eq (line : List Char) : scanFrom0 line = lineValidQuads line := by
  induction line with
  | nil => simp [scanFrom0, lineValidQuads, filterMapRangeSucc, markedB, afterLit]
  | cons c rest ih =>
    unfold lineValidQuads
    rw [show (c :: rest).length + 1 = (rest.length + 1) + 1 from by simp]
    rw [filterMapRangeSucc]
    have hm0 : markedB ([] : List Char) = false := rfl
    simp only [List.take_zero, List.take_succ_cons, List.drop_zero, List.drop_succ_cons, hm0,
      if_false, Option.toList_none, List.nil_append]
    by_cases hlit : litAt parsedLit (c :: rest) = true
    · -- the literal sits at the head: c = '[' and rest starts with its tail
      have hdecomp := litAt_decomp hlit
      have hdecomp' := hdecomp
      rw [parsedLit_eq, List.cons_append] at hdecomp'
      have hchead : c = '[' := by injection hdecomp' with h1 h2
      have hsfx : rest = parsedLit.drop 1 ++ (c :: rest).drop parsedLit.length := by
        injection hdecomp' with h1 h2
      have hmark : ∀ j : Nat, markedB (c :: rest.take j) = ((rest.take j).contains ']') := by
        intro j
        rcases le_or_lt 17 j with hj | hj
        · -- long prefix: the literal is wholly inside, `afterLit` fires at the head
          have hlitAt : litAt parsedLit (c :: rest.take j) = true := by
            have htk : rest.take j =
                parsedLit.drop 1 ++ ((c :: rest).drop parsedLit.length).take (j - 17) := by
              conv_lhs => rw [hsfx]
              rw [List.take_append_eq_append_take]
              have hlen17 : (parsedLit.drop 1).length = 17 := by decide
              rw [List.take_of_length_le (by omega), hlen17]
            have heq : c :: rest.take j =
                parsedLit ++ ((c :: rest).drop parsedLit.length).take (j - 17) := by
              rw [htk, hchead]
              conv_rhs => rw [parsedLit_eq]
              rfl
            rw [heq]
            exact litAt_append _ _
          unfold markedB
          rw [afterLit_cons, if_pos hlitAt]
        · -- short prefix: it lies inside the literal, which holds no `]`
          have htk : rest.take j = (parsedLit.drop 1).take j := by
            conv_lhs => rw [hsfx]
            exact List.take_append_of_le_length (by
              have h17 : (parsedLit.drop 1).length = 17 := by decide
              omega)
          have hcont : ((rest.take j).contains ']') = false := by
            rw [htk]
            by_contra hcc
            have hmem : ']' ∈ (parsedLit.drop 1).take j := by
              have := Bool.of_not_eq_false hcc
              exact List.elem_iff.mp this
            have hmem2 : ']' ∈ parsedLit.drop 1 := List.take_subset _ _ hmem
            have hfalse : (']' ∈ parsedLit.drop 1) → False := by decide
            exact hfalse hmem2
          have hmB : markedB (c :: rest.take j) = false := by
            have hhead : ¬ litAt parsedLit (c :: rest.take j) = true := by
              intro hcon
              have hle := litAt_length hcon
              have h18 : parsedLit.length = 18 := by decide
              simp only [List.length_cons, List.length_take, h18] at hle
              omega
            unfold markedB
            rw [afterLit_cons, if_neg hhead, htk]
            rw [afterLit_short (by
              have h17 : (parsedLit.drop 1).length = 17 := by decide
              have h18 : parsedLit.length = 18 := by decide
              have := List.length_take j (parsedLit.drop 1)
              omega)]
          rw [hmB, hcont]
      simp only [hmark]
      rw [scanFrom0, if_pos hlit, scanFrom1_eq]
      rfl
    · -- no literal at the head: position 0 is dead and the rest shifts by one
      have hmark : ∀ j : Nat, markedB (c :: rest.take j) = markedB (rest.take j) := by
        intro j
        have hhead : ¬ litAt parsedLit (c :: rest.take j) = true := by
          intro hcon
          apply hlit
          have htk : litAt parsedLit ((c :: rest).take (j + 1)) = true := by
            rw [List.take_succ_cons]
            exact hcon
          exact litAt_take htk
        unfold markedB
        rw [afterLit_cons, if_neg hhead]
      simp only [hmark]
      rw [scanFrom0, if_neg hlit, ih]
      rfl

def c6Text : List Char := "crop=1:2:3:4".toList

/-- Counterexample to C6 as stated: this text contains a substring matching
`crop=<W>:<H>:<X>:<Y>` yet the parser reports no crop, because the regex
also requires `[Parsed_cropdetect…]` earlier on the same line. -/
theorem claim_C6_report_parsing_cex :
    hasCropQuad c6Text = true ∧ parse_last_cropdetect c6Text = none := by
  exact ⟨by decide, by decide⟩

/-- Claim C6 (amended): the observation is determined by the last substring
of the text matching `crop=<W>:<H>:<X>:<Y>` that is preceded, on the same
line, by an occurrence of `[Parsed_cropdetect` followed by a `]`; with no
such occurrence the observation is `NoCrop`; later valid occurrences
supersede earlier ones. -/
theorem claim_C6_report_parsing (text : List Char) :
    parse_last_cropdetect text = lastValidCropSpec text := by
  have h : lineCrops = lineValidQuads := funext scanFrom0_eq
  unfold parse_last_cropdetect lastValidCropSpec
  rw [h]

/-! ### Soundness of decisions with respect to the observation log -/

/-- Normalization never lets a crop through whose width/height strings are
the decimal representations of the source frame dimensions. -/
theorem stepObs_not_full (srcW srcH : Nat) (raw : List Char) (r : Rect)
    (h : stepObs srcW srcH raw = Obs.crop r) :
    ¬ (r.w = natStr srcW ∧ r.h = natStr srcH) := by
  unfold stepObs at h
  cases hp : parse_last_cropdetect raw with
  | none =>
    rw [hp] at h
    exact absurd h (by simp)
  | some r0 =>
    rw [hp] at h
    have h' : (if r0.w = natStr srcW ∧ r0.h = natStr srcH then Obs.noCrop else Obs.crop r0) =
        Obs.crop r := h
    by_cases hfull : r0.w = natStr srcW ∧ r0.h = natStr srcH
    · rw [if_pos hfull] at h'
      exact absurd h' (by simp)
    · rw [if_neg hfull] at h'
      have hrr : r0 = r := by injection h'
      exact hrr ▸ hfull

/-- Every log entry of a loop run either carried over from the initial
state or is a normalized sample value. -/
theorem runLoop_log_origin (srcW srcH : Nat) (outputs : List (List Char)) :
    ∀ (starts : List ℤ) (st : DetState) (x : Obs),
      x ∈ (runLoop srcW srcH outputs starts st).2.log →
      x ∈ st.log ∨ ∃ k : Nat, x = stepObs srcW srcH (outputs.getD k []) := by
  intro starts
  induction starts with
  | nil => intro st x hx; exact Or.inl hx
  | cons ss rest ih =>
    intro st x hx
    by_cases hcap : MAX_SAMPLES ≤ st.samplesTaken
    · simp only [runLoop, hcap, if_true] at hx
      exact Or.inl hx
    · simp only [runLoop, hcap, if_false] at hx
      have hlog : ∀ y : Obs, y ∈ st.log ++ [stepObs srcW srcH (outputs.getD st.samplesTaken [])] →
          y ∈ st.log ∨ ∃ k : Nat, y = stepObs srcW srcH (outputs.getD k []) := by
        intro y hy
        rcases List.mem_append.mp hy with hy | hy
        · exact Or.inl hy
        · exact Or.inr ⟨st.samplesTaken, by simpa using hy⟩
      cases hls : loopStep (pushWindow st.lastThree
          (stepObs srcW srcH (outputs.getD st.samplesTaken []))) with
      | some dec =>
        rw [hls] at hx
        exact hlog x hx
      | none =>
        rw [hls] at hx
        rcases ih _ x hx with hmem | hnew
        · exact hlog x hmem
        · exact Or.inr hnew

/-- A decision value produced by `loopStep` is a member of the window it
inspected. -/
theorem loopStep_some_mem (w : List Obs) (r : Rect)
    (h : loopStep w = some (some r)) : Obs.crop r ∈ w := by
  match w with
  | [] => exact absurd h (by simp [loopStep])
  | [a] => exact absurd h (by simp [loopStep])
  | [a, b] =>
    simp only [loopStep] at h
    by_cases hab : a = b
    · rw [if_pos hab] at h
      simp only [Option.some.injEq] at h
      cases a with
      | noCrop => simp [obsToDecision] at h
      | crop s =>
        simp only [obsToDecision, Option.some.injEq] at h
        subst h
        exact List.mem_cons_self _ _
    · rw [if_neg hab] at h
      exact absurd h (by simp)
  | [a, b, c] =>
    simp only [loopStep] at h
    cases hq : quorum [a, b, c] with
    | some r0 =>
      rw [hq] at h
      have hr0 : r0 = r := by
        simp only [Option.some.injEq] at h
        exact h
      -- quorum only returns a value found in the window
      have hq' : (match ([a, b, c].find? (fun v => decide (v ≠ Obs.noCrop) &&
          decide (2 ≤ ([a, b, c].count v)))) with
          | some (Obs.crop s) => some s
          | _ => none) = some r0 := hq
      cases hfind : ([a, b, c].find? (fun v => decide (v ≠ Obs.noCrop) &&
          decide (2 ≤ ([a, b, c].count v)))) with
      | none =>
        rw [hfind] at hq'
        exact absurd hq' (by simp)
      | some v =>
        rw [hfind] at hq'
        have hv := List.mem_of_find?_eq_some hfind
        cases v with
        | noCrop => exact absurd hq' (by simp)
        | crop s =>
          simp only [Option.some.injEq] at hq'
          rw [← hr0, ← hq']
          exact hv
    | none =>
      rw [hq] at h
      by_cases hcnt : 2 ≤ [a, b, c].count Obs.noCrop
      · rw [if_pos hcnt] at h
        exact absurd h (by simp)
      · rw [if_neg hcnt] at h
        exact absurd h (by simp)
  | a :: b :: c :: d :: t => exact absurd h (by simp [loopStep])

theorem lastN_subset (n : Nat) (l : List Obs) : ∀ x ∈ lastN n l, x ∈ l := by
  intro x hx
  exact List.drop_subset _ _ hx

/-- A crop decision returned by the loop occurs in the final log. -/
theorem runLoop_decision_mem (srcW srcH : Nat) (outputs : List (List Char)) :
    ∀ (starts : List ℤ) (st : DetState) (r : Rect), StInv st →
      (runLoop srcW srcH outputs starts st).1 = some (some r) →
      Obs.crop r ∈ (runLoop srcW srcH outputs starts st).2.log := by
  intro starts
  induction starts with
  | nil =>
    intro st r _ hdec
    exact absurd hdec (by simp [runLoop])
  | cons ss rest ih =>
    intro st r hinv hdec
    by_cases hcap : MAX_SAMPLES ≤ st.samplesTaken
    · simp only [runLoop, hcap, if_true] at hdec
      exact absurd hdec (by simp)
    · have hst' := stInv_step st (stepObs srcW srcH (outputs.getD st.samplesTaken [])) hinv
      simp only [runLoop, hcap, if_false] at hdec ⊢
      cases hls : loopStep (pushWindow st.lastThree
          (stepObs srcW srcH (outputs.getD st.samplesTaken []))) with
      | some dec =>
        rw [hls] at hdec
        simp only [Option.some.injEq] at hdec
        subst hdec
        have hmem := loopStep_some_mem _ _ hls
        -- the window is the last-3 suffix of the new log
        have hwin : pushWindow st.lastThree
            (stepObs srcW srcH (outputs.getD st.samplesTaken [])) =
            lastN 3 (st.log ++ [stepObs srcW srcH (outputs.getD st.samplesTaken [])]) := by
          obtain ⟨-, hlt, -⟩ := hinv
          rw [hlt, lastN_append]
        rw [hwin] at hmem
        exact lastN_subset _ _ _ hmem
      | none =>
        rw [hls] at hdec
        exact ih _ r hst' hdec

/-- A crop decision produced by the fallback chain occurs in the log. -/
theorem fallback_mem (st : DetState) (r : Rect) (hinv : StInv st)
    (h : fallbackDecision st = some r) : Obs.crop r ∈ st.log := by
  obtain ⟨-, hlt, hth⟩ := hinv
  unfold fallbackDecision at h
  cases hts : st.thirdSample with
  | some v =>
    rw [hts] at h
    cases v with
    | noCrop => exact absurd h (by simp [obsToDecision])
    | crop s =>
      simp only [obsToDecision, Option.some.injEq] at h
      subst h
      rw [hts] at hth
      exact List.getElem?_mem hth.symm
  | none =>
    rw [hts] at h
    cases hf : (st.lastThree.reverse.find? (fun v => decide (v ≠ Obs.noCrop))) with
    | none => rw [hf] at h; exact absurd h (by simp)
    | some v =>
      rw [hf] at h
      have hv := List.mem_of_find?_eq_some hf
      rw [List.mem_reverse] at hv
      cases v with
      | noCrop => exact absurd h (by simp)
      | crop s =>
        simp only [Option.some.injEq] at h
        subst h
        rw [hlt] at hv
        exact lastN_subset _ _ _ hv

/-- Any returned rectangle occurs in the run's observation log. -/
theorem detect_result_mem (srcW srcH : Nat) (dur : Option ℚ) (outputs : List (List Char))
    (r : Rect) (h : (detectRun srcW srcH dur outputs).1 = some r) :
    Obs.crop r ∈ (detectRun srcW srcH dur outputs).2.log := by
  unfold detectRun at h ⊢
  cases hmp : mainParams dur with
  | none =>
    rw [hmp] at h
    simp only at h ⊢
    cases hp : parse_last_cropdetect (outputs.getD 0 []) with
    | none =>
      rw [hp] at h
      exact absurd h (by simp)
    | some r0 =>
      rw [hp] at h
      have h' : (if r0.w = natStr srcW ∧ r0.h = natStr srcH then (none : Option Rect)
          else some r0) = some r := h
      by_cases hfull : r0.w = natStr srcW ∧ r0.h = natStr srcH
      · rw [if_pos hfull] at h'
        exact absurd h' (by simp)
      · rw [if_neg hfull] at h'
        have hr0 : r0 = r := by simpa using h'
        have hstep : stepObs srcW srcH (outputs.getD 0 []) = Obs.crop r0 := by
          unfold stepObs
          rw [hp]
          exact if_neg hfull
        rw [hstep, hr0]
        exact List.mem_singleton_self _
  | some p =>
    obtain ⟨starts, len⟩ := p
    rw [hmp] at h
    simp only at h ⊢
    rcases hrl : runLoop srcW srcH outputs starts initState with ⟨res, stf⟩
    rw [hrl] at h
    have hinv : StInv stf := by
      have := runLoop_inv srcW srcH outputs starts initState stInv_init
      rw [hrl] at this
      exact this
    cases res with
    | some d =>
      simp only at h ⊢
      subst h
      have hd : (runLoop srcW srcH outputs starts initState).1 = some (some r) := by
        rw [hrl]
      have hm := runLoop_decision_mem srcW srcH outputs starts initState r stInv_init hd
      rw [hrl] at hm
      exact hm
    | none =>
      simp only at h ⊢
      exact fallback_mem stf r hinv h

/-- No log entry is a crop whose width/height strings equal the canonical
decimal representations of the source frame dimensions. -/
theorem detect_log_not_full (srcW srcH : Nat) (dur : Option ℚ) (outputs : List (List Char))
    (r : Rect) (h : Obs.crop r ∈ (detectRun srcW srcH dur outputs).2.log) :
    ¬ (r.w = natStr srcW ∧ r.h = natStr srcH) := by
  unfold detectRun at h
  cases hmp : mainParams dur with
  | none =>
    rw [hmp] at h
    simp only at h
    have hx : Obs.crop r = stepObs srcW srcH (outputs.getD 0 []) := by
      simpa using h
    exact stepObs_not_full _ _ _ _ hx.symm
  | some p =>
    obtain ⟨starts, len⟩ := p
    rw [hmp] at h
    simp only at h
    rcases hrl : runLoop srcW srcH outputs starts initState with ⟨res, stf⟩
    rw [hrl] at h
    have h' : Obs.crop r ∈ stf.log := by
      cases res <;> simpa using h
    have horigin := runLoop_log_origin srcW srcH outputs starts initState (Obs.crop r)
      (by rw [hrl]; exact h')
    rcases horigin with hmem | ⟨k, hk⟩
    · simp [initState] at hmem
    · exact stepObs_not_full _ _ _ _ hk.symm

/-- The final rolling window is contained in the log. -/
theorem detectRun_lastThree_sub (srcW srcH : Nat) (dur : Option ℚ)
    (outputs : List (List Char)) :
    ∀ x ∈ (detectRun srcW srcH dur outputs).2.lastThree,
      x ∈ (detectRun srcW srcH dur outputs).2.log := by
  intro x hx
  unfold detectRun at hx ⊢
  cases hmp : mainParams dur with
  | none =>
    rw [hmp] at hx
    simp at hx
  | some p =>
    obtain ⟨starts, len⟩ := p
    rw [hmp] at hx
    simp only at hx ⊢
    rcases hrl : runLoop srcW srcH outputs starts initState with ⟨res, stf⟩
    rw [hrl] at hx
    have hinv : StInv stf := by
      have := runLoop_inv srcW srcH outputs starts initState stInv_init
      rw [hrl] at this
      exact this
    obtain ⟨-, hlt, -⟩ := hinv
    have hx' : x ∈ stf.lastThree := by
      cases res <;> simpa using hx
    have hlog : x ∈ stf.log := by
      rw [hlt] at hx'
      exact lastN_subset _ _ _ hx'
    cases res <;> simpa using hlog

/-- The recorded 3rd-sample value is in the log. -/
theorem detectRun_third_mem (srcW srcH : Nat) (dur : Option ℚ)
    (outputs : List (List Char)) (v : Obs)
    (h : (detectRun srcW srcH dur outputs).2.thirdSample = some v) :
    v ∈ (detectRun srcW srcH dur outputs).2.log := by
  unfold detectRun at h ⊢
  cases hmp : mainParams dur with
  | none =>
    rw [hmp] at h
    exact absurd h (by simp)
  | some p =>
    obtain ⟨starts, len⟩ := p
    rw [hmp] at h
    simp only at h ⊢
    rcases hrl : runLoop srcW srcH outputs starts initState with ⟨res, stf⟩
    rw [hrl] at h
    have hinv : StInv stf := by
      have := runLoop_inv srcW srcH outputs starts initState stInv_init
      rw [hrl] at this
      exact this
    obtain ⟨-, -, hth⟩ := hinv
    have h' : stf.thirdSample = some v := by
      cases res <;> simpa using h
    rw [hth] at h'
    have hmem : v ∈ stf.log := List.getElem?_mem h'
    cases res <;> simpa using hmem

def c7Txt : List Char := "[Parsed_cropdetect] crop=01920:01080:0:0".toList

def c7Rect : Rect := ⟨"01920".toList, "01080".toList, ['0'], ['0']⟩

/-- Counterexample to C7 as stated: on a 1920×1080 source, the analyzer
text reports `crop=01920:01080:0:0`; the parsed rectangle's width and
height equal the source frame dimensions (as numbers), yet the observation
is recorded as a crop and returned, because the code compares the raw digit
strings (`"01920" ≠ "1920"`). -/
theorem claim_C7_full_frame_normalization_cex :
    parse_last_cropdetect c7Txt = some c7Rect ∧
    digitsVal c7Rect.w = 1920 ∧ digitsVal c7Rect.h = 1080 ∧
    detect_plack_bars 1920 1080 (some 30) [c7Txt] = some c7Rect :=
  ⟨by decide, by decide, by decide, by decide⟩

/-- Claim C7 (amended): a parsed rectangle whose width and height *strings*
equal the canonical decimal representations of the source frame dimensions
is always normalized to `NoCrop`; consequently no such rectangle is ever
stored in the rolling window, recorded as the 3rd-sample fallback value,
kept in the observation log, or returned as the final decision. -/
theorem claim_C7_full_frame_normalization (srcW srcH : Nat) (dur : Option ℚ)
    (outputs : List (List Char)) (r : Rect)
    (h : Obs.crop r ∈ (detectRun srcW srcH dur outputs).2.log ∨
         Obs.crop r ∈ (detectRun srcW srcH dur outputs).2.lastThree ∨
         (detectRun srcW srcH dur outputs).2.thirdSample = some (Obs.crop r) ∨
         (detectRun srcW srcH dur outputs).1 = some r) :
    ¬ (r.w = natStr srcW ∧ r.h = natStr srcH) := by
  rcases h with h | h | h | h
  · exact detect_log_not_full _ _ _ _ _ h
  · exact detect_log_not_full _ _ _ _ _ (detectRun_lastThree_sub _ _ _ _ _ h)
  · exact detect_log_not_full _ _ _ _ _ (detectRun_third_mem _ _ _ _ _ h)
  · exact detect_log_not_full _ _ _ _ _ (detect_result_mem _ _ _ _ _ h)

def wTxt : List Char := "[Parsed_cropdetect] crop=1920:800:0:140".toList

def wRect : Rect := ⟨"1920".toList, "800".toList, ['0'], "140".toList⟩

/-- Witness for amended C7: a genuine letterbox detection is returned, and
its dimension strings indeed differ from the source's. -/
theorem claim_C7_full_frame_normalization_witness :
    ¬ (wRect.w = natStr 1920 ∧ wRect.h = natStr 1080) :=
  claim_C7_full_frame_normalization 1920 1080 (some 30) [wTxt] wRect
    (Or.inr (Or.inr (Or.inr (by decide))))

def c8Txt : List Char := "[Parsed_cropdetect]crop=0:0:0:0".toList

def c8Rect : Rect := ⟨['0'], ['0'], ['0'], ['0']⟩

/-- Counterexample to C8 as stated: with probed dimensions 0×0, the parsed
rectangle `0:0:0:0` *is* matched by the full-frame equality check
(`"0" == str(0)`), so this crop observation is suppressed. -/
theorem claim_C8_degenerate_zero_cex :
    parse_last_cropdetect c8Txt = some c8Rect ∧
    stepObs 0 0 c8Txt = Obs.noCrop ∧
    detect_plack_bars 0 0 (some 30) [c8Txt] = none :=
  ⟨by decide, by decide, by decide⟩

/-- Claim C8 (amended): with probed dimensions 0×0, the full-frame equality
check matches exactly the parsed rectangles whose width and height strings
are both the literal `"0"`; every other parsed rectangle survives
normalization unchanged — no other crop is ever suppressed by the check. -/
theorem claim_C8_degenerate_zero (raw : List Char) (r : Rect)
    (hp : parse_last_cropdetect raw = some r) :
    (¬ (r.w = ['0'] ∧ r.h = ['0']) → stepObs 0 0 raw = Obs.crop r) ∧
    ((r.w = ['0'] ∧ r.h = ['0']) → stepObs 0 0 raw = Obs.noCrop) := by
  have h0 : natStr 0 = ['0'] := by decide
  constructor
  · intro hne
    unfold stepObs
    rw [hp]
    exact if_neg (by rw [h0]; exact hne)
  · intro he
    unfold stepObs
    rw [hp]
    exact if_pos (by rw [h0]; exact he)

/-- Witness for amended C8: a 1×1 crop on a 0×0 source is not suppressed. -/
theorem claim_C8_degenerate_zero_witness :
    stepObs 0 0 (cdTxt '1') = Obs.crop rect1 :=
  (claim_C8_degenerate_zero (cdTxt '1') rect1 (by decide)).1 (by decide)

def c10Txt : List Char := "[Parsed_cropdetect] crop=0640:0480:0:0".toList

def c10Rect : Rect := ⟨"0640".toList, "0480".toList, ['0'], ['0']⟩

/-- Counterexample to C10 as stated: on a 640×480 source, the returned
rectangle's width and height equal the full source frame dimensions as
numbers (leading zeros defeat the string comparison), so a returned
rectangle does not always differ from the source frame dimensions. -/
theorem claim_C10_result_soundness_cex :
    detect_plack_bars 640 480 (some 20) [c10Txt] = some c10Rect ∧
    digitsVal c10Rect.w = 640 ∧ digitsVal c10Rect.h = 480 :=
  ⟨by decide, by decide, by decide⟩

/-- Claim C10 (amended): a returned rectangle always equals one of the
normalized observations recorded during the run (nothing is fabricated),
and its width/height strings differ from the canonical decimal
representations of the source frame dimensions. -/
theorem claim_C10_result_soundness (srcW srcH : Nat) (dur : Option ℚ)
    (outputs : List (List Char)) (r : Rect)
    (h : (detectRun srcW srcH dur outputs).1 = some r) :
    Obs.crop r ∈ (detectRun srcW srcH dur outputs).2.log ∧
    ¬ (r.w = natStr srcW ∧ r.h = natStr srcH) := by
  have hmem := detect_result_mem srcW srcH dur outputs r h
  exact ⟨hmem, detect_log_not_full srcW srcH dur outputs r hmem⟩

/-- Witness for amended C10: the returned letterbox rectangle is the
recorded observation of sample 1. -/
theorem claim_C10_result_soundness_witness :
    Obs.crop wRect ∈ (detectRun 1920 1080 (some 45) [wTxt]).2.log ∧
    ¬ (wRect.w = natStr 1920 ∧ wRect.h = natStr 1080) :=
  claim_C10_result_soundness 1920 1080 (some 45) [wTxt] wRect (by decide)

/-! ### Claim C9: duration resolution order -/

/-- First-success choice among the three resolution sources, in the order
the claim lists them. -/
def firstSome (a b c : Option ℚ) : Option ℚ :=
  match a with
  | some q => some q
  | none =>
    match b with
    | some q => some q
    | none => c

/-- Per-stream extraction: a video stream's duration field parsed with
`float`, when present, non-null and parsable. -/
def streamTry (s : J) : Option ℚ :=
  match s with
  | J.jobj skvs =>
    if jIsStrVal (jget skvs codecTypeKey) videoStr then
      match jget skvs durationKey with
      | some dur => if jIsNull dur then none else pyFloat dur
      | none => none
    else none
  | _ => none

/-- Source (2) exactly as claim C9 words it: the duration field of the
*first* stream whose type is "video", parsed; nothing else is consulted. -/
def claimFirstVideoDuration (streamsVal : Option J) : Option ℚ :=
  match streamsVal with
  | some (J.jarr xs) =>
    match xs.find? (fun s => match s with
      | J.jobj skvs => jIsStrVal (jget skvs codecTypeKey) videoStr
      | _ => false) with
    | some s => streamTry s
    | none => none
  | _ => none

/-- The resolver exactly as claim C9 states it. -/
def claimDurationResolve (probe : J) : Option ℚ :=
  firstSome (fmtDuration (probeFmt probe))
    (claimFirstVideoDuration (probeStreams probe))
    (tagsDuration (probeFmt probe))

/-- Source (2) as the code actually behaves: every video stream is tried in
order and the first parsable duration wins. -/
def specStreamsDuration (streamsVal : Option J) : Option ℚ :=
  match streamsVal with
  | some (J.jarr xs) => xs.findSome? streamTry
  | _ => none

/-- The amended resolver: first success among format duration, first
parsable video-stream duration, and the tags `DURATION`. -/
def specDurationResolve (probe : J) : Option ℚ :=
  firstSome (fmtDuration (probeFmt probe))
    (specStreamsDuration (probeStreams probe))
    (tagsDuration (probeFmt probe))

/-- Every element of the probe's streams array (when there is one) is an
object; `s.get` raises on anything else. -/
def StreamsWF (probe : J) : Prop :=
  match probeStreams probe with
  | some (J.jarr xs) => ∀ s ∈ xs, ∃ skvs, s = J.jobj skvs
  | _ => True

deriving instance DecidableEq for Except

def c9Probe : J :=
  J.jobj [(streamsKey, J.jarr [
    J.jobj [(codecTypeKey, J.jstr videoStr), (durationKey, J.jstr ("abc".toList))],
    J.jobj [(codecTypeKey, J.jstr videoStr), (durationKey, J.jnum 5)]])]

/-- Counterexample to C9 as stated: the first video stream's duration is
unparsable, so the claimed resolution order yields "unknown"; the code,
whose stream loop has no `break`, goes on to the second video stream and
returns 5. -/
theorem claim_C9_duration_resolution_cex :
    get_video_duration_seconds_from_probe c9Probe = Except.ok (some 5) ∧
    claimDurationResolve c9Probe = none :=
  ⟨by decide, by decide⟩

/-- On an all-object streams list the loop never raises and returns the
first parsable video-stream duration. -/
theorem streamLoop_ok (xs : List J) (hwf : ∀ s ∈ xs, ∃ skvs, s = J.jobj skvs) :
    streamLoop xs = Except.ok (xs.findSome? streamTry) := by
  induction xs with
  | nil => rfl
  | cons s rest ih =>
    obtain ⟨skvs, rfl⟩ := hwf s (List.mem_cons_self _ _)
    have hrest := ih (fun t ht => hwf t (List.mem_cons_of_mem _ ht))
    rw [List.findSome?_cons]
    simp only [streamLoop, streamTry]
    by_cases hv : jIsStrVal (jget skvs codecTypeKey) videoStr = true
    · rw [if_pos hv, if_pos hv]
      cases hd : jget skvs durationKey with
      | none => exact hrest
      | some dur =>
        simp only []
        by_cases hn : jIsNull dur = true
        · rw [if_pos hn, if_pos hn]
          exact hrest
        · rw [if_neg hn, if_neg hn]
          cases hp : pyFloat dur with
          | none =>
            simp only []
            exact hrest
          | some q => rfl
    · rw [if_neg hv, if_neg hv]
      exact hrest

/-- Claim C9 (amended): for every probe whose streams array contains only
objects, the resolver returns — without raising — the first success among
(1) the format duration field, (2) the video streams' duration fields tried
in order (the first parsable one wins, not only the first video stream's),
(3) the `HH:MM:SS[.frac]` format-tags `DURATION`; and "unknown" when all
fail.  (On a probe with a non-object element in its streams list the code
raises `AttributeError` instead of degrading.) -/
theorem claim_C9_duration_resolution (probe : J) (hwf : StreamsWF probe) :
    get_video_duration_seconds_from_probe probe = Except.ok (specDurationResolve probe) := by
  unfold get_video_duration_seconds_from_probe specDurationResolve firstSome
  cases hf : fmtDuration (probeFmt probe) with
  | some q => rfl
  | none =>
    unfold StreamsWF at hwf
    unfold specStreamsDuration
    cases hs : probeStreams probe with
    | none => rfl
    | some v =>
      cases v with
      | jarr xs =>
        rw [hs] at hwf
        simp only [] at hwf
        simp only []
        rw [streamLoop_ok xs hwf]
        cases hfs : xs.findSome? streamTry with
        | none => rfl
        | some q => rfl
      | null => rfl
      | jbool b => rfl
      | jnum q => rfl
      | jstr t => rfl
      | jobj kvs => rfl

def w9Probe : J := J.jobj [(fmtKey, J.jobj [(durationKey, J.jnum 42)])]

/-- Witness for amended C9: a probe with a numeric format duration resolves
to it. -/
theorem claim_C9_duration_resolution_witness :
    get_video_duration_seconds_from_probe w9Probe = Except.ok (some 42) :=
  (claim_C9_duration_resolution w9Probe (by trivial)).trans (by decide)

end CropDetect
